import Mathlib

/-!
Shallow embedding of `src/vga_buffer.rs`: a VGA text-mode writer with a
25 x 80 buffer of colored characters.  The buffer is modelled as a total
function from (row, column) to cells; the volatile reads and writes of the
source are modelled as plain functional reads and updates (the program is
single-threaded while the lock of the `WRITER` singleton is held).  A second,
Option-indexed model checks that every access stays in bounds.
-/

set_option linter.unusedVariables false

namespace VgaBuffer

/-- The standard color palette in VGA text mode: the `Color` enum of the
source, with discriminants 0..15 fixed by `repr(u8)`. -/
inductive Color where
  | Black
  | Blue
  | Green
  | Cyan
  | Red
  | Magenta
  | Brown
  | LightGray
  | DarkGray
  | LightBlue
  | LightGreen
  | LightCyan
  | LightRed
  | Pink
  | Yellow
  | White
  deriving DecidableEq

/-- Value of the cast `color as u8`: the enum discriminant. -/
def Color.toByte : Color → Nat
  | .Black => 0
  | .Blue => 1
  | .Green => 2
  | .Cyan => 3
  | .Red => 4
  | .Magenta => 5
  | .Brown => 6
  | .LightGray => 7
  | .DarkGray => 8
  | .LightBlue => 9
  | .LightGreen => 10
  | .LightCyan => 11
  | .LightRed => 12
  | .Pink => 13
  | .Yellow => 14
  | .White => 15

/-- Full color code for characters (background + foreground), the
`struct ColorCode(u8)` of the source.  Both discriminants are at most 15, so
the packed value is below 256 and no `u8` wrap-around can occur. -/
structure ColorCode where
  code : Nat
  deriving DecidableEq

/-- Constructor `ColorCode::new`: packs
`(background as u8) << 4 | (foreground as u8)`. -/
def ColorCode.new (foreground background : Color) : ColorCode :=
  ⟨(background.toByte <<< 4) ||| foreground.toByte⟩

/-- One character on the screen: its ascii byte and its color
(`struct ScreenChar` of the source). -/
structure ScreenChar where
  ascii_char : Nat
  color_code : ColorCode
  deriving DecidableEq

/-- Number of lines of the text buffer (`BUFFER_HEIGHT`). -/
def BUFFER_HEIGHT : Nat := 25

/-- Number of columns of the text buffer (`BUFFER_WIDTH`). -/
def BUFFER_WIDTH : Nat := 80

/-- The text buffer (`struct Buffer`), a `BUFFER_HEIGHT x BUFFER_WIDTH`
grid of `Volatile<ScreenChar>`, modelled as a total function from
(row, column). -/
def Buffer : Type := Nat → Nat → ScreenChar

/-- Volatile write `self.buffer.chars[row][col].write(v)`. -/
def Buffer.write (b : Buffer) (row col : Nat) (v : ScreenChar) : Buffer :=
  fun r c => if r = row ∧ c = col then v else b r c

/-- Volatile read `self.buffer.chars[row][col].read()`. -/
def Buffer.read (b : Buffer) (row col : Nat) : ScreenChar := b row col

/-- The `Writer` state: `column_position`, `color_code` and the buffer.
The `scrolls` field is ghost instrumentation that is not present in the
source: it counts the `new_line` (scroll) events, no operation reads it,
and it is used only to state the scroll-counting claims. -/
structure Writer where
  column_position : Nat
  color_code : ColorCode
  buffer : Buffer
  scrolls : Nat

/-- Method `Writer::clear_row` exactly as written in the source: it binds
`blank_char` to a blank `ScreenChar` (space with the current color) but the
body contains no write to the buffer, so the writer is returned unchanged. -/
def Writer.clear_row (s : Writer) (row : Nat) : Writer :=
  let blank_char : ScreenChar := { ascii_char := 0x20, color_code := s.color_code }
  s

/-- Inner loop of the scroll in `Writer::new_line` for one `row`:
for col in 0..BUFFER_WIDTH, read `chars[row][col]` and write it one row up.
In the source the write target is `self.buffer.chars[row - 1].write(character)`
with the column index missing; that expression is ill-typed in Rust (the row
array has no `write` method), so the embedding restores the evident `[col]`
on the target. -/
def copyRow (b : Buffer) (row : Nat) : Buffer :=
  (List.range BUFFER_WIDTH).foldl
    (fun b col => b.write (row - 1) col (b.read row col)) b

/-- Outer loop of the scroll in `Writer::new_line`:
for row in 1..BUFFER_HEIGHT, copy row `row` one row up. -/
def shiftUp (b : Buffer) : Buffer :=
  (List.range' 1 (BUFFER_HEIGHT - 1)).foldl (fun b row => copyRow b row) b

/-- Method `Writer::new_line`: scroll every row up by one, then
`clear_row(BUFFER_HEIGHT - 1)` (a no-op in this source, see
`Writer.clear_row`), then reset `column_position` to 0.  The ghost
`scrolls` counter is incremented once per call. -/
def Writer.new_line (s : Writer) : Writer :=
  let s1 : Writer := { s with buffer := shiftUp s.buffer, scrolls := s.scrolls + 1 }
  let s2 := s1.clear_row (BUFFER_HEIGHT - 1)
  { s2 with column_position := 0 }

/-- Method `Writer::write_byte`: the newline byte (10) triggers `new_line`;
any other byte is stored raw (no sanitization here) at row
`BUFFER_HEIGHT - 1` and the current column with the current color, after a
scroll when `column_position >= BUFFER_WIDTH`. -/
def Writer.write_byte (s : Writer) (byte : Nat) : Writer :=
  if byte = 10 then s.new_line
  else
    let s := if BUFFER_WIDTH ≤ s.column_position then s.new_line else s
    let row := BUFFER_HEIGHT - 1
    let col := s.column_position
    let color_code := s.color_code
    { s with
      buffer := s.buffer.write row col { ascii_char := byte, color_code := color_code }
      column_position := s.column_position + 1 }

/-- Method `Writer::write_string`, byte by byte over the string: bytes in
`0x20..=0x7e` and the newline byte (10) are forwarded to `write_byte`
unchanged; every other byte is replaced by `0xfe`. -/
def Writer.write_string (s : Writer) (bytes : List Nat) : Writer :=
  bytes.foldl
    (fun s byte =>
      if (0x20 ≤ byte ∧ byte ≤ 0x7e) ∨ byte = 10 then s.write_byte byte
      else s.write_byte 0xfe)
    s

/-- Iterated `write_byte`, used to state the multi-byte claims. -/
def Writer.writeBytes (s : Writer) (bytes : List Nat) : Writer :=
  bytes.foldl (fun s byte => s.write_byte byte) s

/-- Initial state of the `WRITER` singleton from the `lazy_static` block:
`column_position: 0`, `color_code: ColorCode::new(Yellow, Black)`.  The
buffer is the VGA memory at `0xb8000`, whose startup contents the program
does not specify, hence a parameter. -/
def initialWriter (buf : Buffer) : Writer :=
  { column_position := 0
    color_code := ColorCode.new Color.Yellow Color.Black
    buffer := buf
    scrolls := 0 }

/-- An all-blank buffer, used as a concrete test state. -/
def blankBuffer : Buffer :=
  fun _ _ => { ascii_char := 0x20, color_code := ColorCode.new Color.Yellow Color.Black }

/-- A concrete writer over the all-blank buffer. -/
def w0 : Writer := initialWriter blankBuffer

/-- A concrete writer whose bottom-left cell holds the letter A (byte 65). -/
def wA : Writer :=
  { w0 with
    buffer := w0.buffer.write (BUFFER_HEIGHT - 1) 0
      { ascii_char := 65, color_code := w0.color_code } }

/-- A concrete writer whose column position sits at the right margin. -/
def w80 : Writer := { w0 with column_position := BUFFER_WIDTH }

/-! ### Option-indexed model

The same operations with every buffer access bounds-checked: an access with
row outside `[0, BUFFER_HEIGHT)` or column outside `[0, BUFFER_WIDTH)` takes
the `none` branch, modelling the out-of-range panic of Rust indexing.  The
in-bounds claim states that under the column invariant this model never
returns `none` and agrees with the total model above. -/

/-- Bounds-checked volatile read: `none` out of range. -/
def Buffer.readO (b : Buffer) (row col : Nat) : Option ScreenChar :=
  if row < BUFFER_HEIGHT ∧ col < BUFFER_WIDTH then some (b.read row col) else none

/-- Bounds-checked volatile write: `none` out of range. -/
def Buffer.writeO (b : Buffer) (row col : Nat) (v : ScreenChar) : Option Buffer :=
  if row < BUFFER_HEIGHT ∧ col < BUFFER_WIDTH then some (b.write row col v) else none

/-- Bounds-checked inner scroll loop over a list of columns. -/
def foldCellsO (row : Nat) : List Nat → Buffer → Option Buffer
  | [], b => some b
  | col :: cols, b =>
      (b.readO row col).bind fun character =>
        (b.writeO (row - 1) col character).bind fun b2 =>
          foldCellsO row cols b2

/-- Bounds-checked version of `copyRow`. -/
def copyRowO (b : Buffer) (row : Nat) : Option Buffer :=
  foldCellsO row (List.range BUFFER_WIDTH) b

/-- Bounds-checked outer scroll loop over a list of rows. -/
def foldRowsO : List Nat → Buffer → Option Buffer
  | [], b => some b
  | row :: rows, b => (copyRowO b row).bind fun b2 => foldRowsO rows b2

/-- Bounds-checked version of `shiftUp`. -/
def shiftUpO (b : Buffer) : Option Buffer :=
  foldRowsO (List.range' 1 (BUFFER_HEIGHT - 1)) b

/-- Bounds-checked version of `clear_row`: the source body performs no
buffer access at all, so it trivially succeeds. -/
def Writer.clear_rowO (s : Writer) (row : Nat) : Option Writer :=
  some (s.clear_row row)

/-- Bounds-checked version of `new_line`. -/
def Writer.new_lineO (s : Writer) : Option Writer :=
  (shiftUpO s.buffer).bind fun buf =>
    (Writer.clear_rowO { s with buffer := buf, scrolls := s.scrolls + 1 }
        (BUFFER_HEIGHT - 1)).bind fun s2 =>
      some { s2 with column_position := 0 }

/-- Bounds-checked version of `write_byte`. -/
def Writer.write_byteO (s : Writer) (byte : Nat) : Option Writer :=
  if byte = 10 then s.new_lineO
  else
    (if BUFFER_WIDTH ≤ s.column_position then s.new_lineO else some s).bind fun s1 =>
      (s1.buffer.writeO (BUFFER_HEIGHT - 1) s1.column_position
          { ascii_char := byte, color_code := s1.color_code }).bind fun buf =>
        some { s1 with buffer := buf, column_position := s1.column_position + 1 }

/-! ### Basic lemmas about the buffer and the loops -/

theorem Buffer.read_eq (b : Buffer) (row col : Nat) : b.read row col = b row col := rfl

theorem Buffer.write_apply (b : Buffer) (row col : Nat) (v : ScreenChar) (r c : Nat) :
    (b.write row col v) r c = if r = row ∧ c = col then v else b r c := rfl

theorem Buffer.write_apply_self (b : Buffer) (row col : Nat) (v : ScreenChar) :
    (b.write row col v) row col = v := by
  simp [Buffer.write]

theorem Buffer.write_apply_ne (b : Buffer) (row col : Nat) (v : ScreenChar) (r c : Nat)
    (h : ¬(r = row ∧ c = col)) : (b.write row col v) r c = b r c := by
  simp only [Buffer.write_apply, if_neg h]

theorem copyCells_apply (row : Nat) (h1 : 1 ≤ row) :
    ∀ (cols : List Nat) (b : Buffer) (r c : Nat),
      (cols.foldl (fun b col => b.write (row - 1) col (b.read row col)) b) r c
        = if r = row - 1 ∧ c ∈ cols then b row c else b r c := by
  intro cols
  induction cols with
  | nil =>
      intro b r c
      simp
  | cons x xs ih =>
      intro b r c
      rw [List.foldl_cons, ih]
      by_cases hx : r = row - 1 ∧ c ∈ xs
      · rw [if_pos hx, if_pos ⟨hx.1, List.mem_cons_of_mem _ hx.2⟩]
        exact Buffer.write_apply_ne _ _ _ _ _ _ (by omega)
      · rw [if_neg hx, Buffer.write_apply]
        by_cases hx2 : r = row - 1 ∧ c = x
        · rw [if_pos hx2, if_pos ⟨hx2.1, by rw [hx2.2]; exact List.mem_cons_self x xs⟩,
            Buffer.read_eq, hx2.2]
        · rw [if_neg hx2, if_neg]
          intro hcon
          rcases List.mem_cons.mp hcon.2 with h | h
          · exact hx2 ⟨hcon.1, h⟩
          · exact hx ⟨hcon.1, h⟩

theorem copyRow_apply (b : Buffer) (row : Nat) (h1 : 1 ≤ row) :
    ∀ r c, copyRow b row r c
      = if r = row - 1 ∧ c < BUFFER_WIDTH then b row c else b r c := by
  intro r c
  unfold copyRow
  rw [copyCells_apply row h1]
  simp [List.mem_range]

theorem shiftRows_apply :
    ∀ (n k : Nat), 1 ≤ k → k + n = BUFFER_HEIGHT →
      ∀ (b : Buffer) (r c : Nat),
        ((List.range' k n).foldl (fun b row => copyRow b row) b) r c
          = if k - 1 ≤ r ∧ r < BUFFER_HEIGHT - 1 ∧ c < BUFFER_WIDTH then b (r + 1) c
            else b r c := by
  intro n
  induction n with
  | zero =>
      intro k hk heq b r c
      rw [if_neg (by omega)]
      simp [List.range']
  | succ n ih =>
      intro k hk heq b r c
      rw [List.range'_succ, List.foldl_cons, ih (k + 1) (by omega) (by omega)]
      simp only [Nat.add_sub_cancel, copyRow_apply b k hk]
      split_ifs with h1 h2 h3 h4 h5 h6 <;> try rfl
      all_goals try omega
      all_goals rw [show k = r + 1 by omega]

theorem shiftUp_apply (b : Buffer) (r c : Nat) :
    shiftUp b r c
      = if r < BUFFER_HEIGHT - 1 ∧ c < BUFFER_WIDTH then b (r + 1) c else b r c := by
  unfold shiftUp
  rw [shiftRows_apply (BUFFER_HEIGHT - 1) 1 (by decide) (by decide) b r c]
  simp

/-! ### Unfolding lemmas for the writer operations -/

theorem new_line_column (s : Writer) : (s.new_line).column_position = 0 := rfl

theorem new_line_color (s : Writer) : (s.new_line).color_code = s.color_code := rfl

theorem new_line_scrolls (s : Writer) : (s.new_line).scrolls = s.scrolls + 1 := rfl

theorem new_line_buffer (s : Writer) : (s.new_line).buffer = shiftUp s.buffer := rfl

theorem write_byte_newline (s : Writer) : s.write_byte 10 = s.new_line := rfl

theorem write_byte_of_lt (s : Writer) (byte : Nat) (hn : byte ≠ 10)
    (h : s.column_position < BUFFER_WIDTH) :
    s.write_byte byte =
      { s with
        buffer := s.buffer.write (BUFFER_HEIGHT - 1) s.column_position
          { ascii_char := byte, color_code := s.color_code }
        column_position := s.column_position + 1 } := by
  unfold Writer.write_byte
  rw [if_neg hn, if_neg (by omega : ¬ BUFFER_WIDTH ≤ s.column_position)]

theorem write_byte_of_ge (s : Writer) (byte : Nat) (hn : byte ≠ 10)
    (h : BUFFER_WIDTH ≤ s.column_position) :
    s.write_byte byte = (s.new_line).write_byte byte := by
  rw [write_byte_of_lt (s.new_line) byte hn (by rw [new_line_column]; decide)]
  unfold Writer.write_byte
  rw [if_neg hn, if_pos h]

theorem write_string_nil (s : Writer) : s.write_string [] = s := rfl

theorem write_string_cons (s : Writer) (x : Nat) (xs : List Nat) :
    s.write_string (x :: xs) =
      (if (0x20 ≤ x ∧ x ≤ 0x7e) ∨ x = 10 then s.write_byte x
       else s.write_byte 0xfe).write_string xs := rfl

theorem writeBytes_nil (s : Writer) : s.writeBytes [] = s := rfl

theorem writeBytes_cons (s : Writer) (x : Nat) (xs : List Nat) :
    s.writeBytes (x :: xs) = (s.write_byte x).writeBytes xs := rfl

theorem writeBytes_append (s : Writer) (l1 l2 : List Nat) :
    s.writeBytes (l1 ++ l2) = (s.writeBytes l1).writeBytes l2 := by
  unfold Writer.writeBytes
  rw [List.foldl_append]

theorem write_byte_col_le (s : Writer) (byte : Nat) :
    (s.write_byte byte).column_position ≤ BUFFER_WIDTH := by
  by_cases hb : byte = 10
  · subst hb
    rw [write_byte_newline, new_line_column]
    exact Nat.zero_le _
  · by_cases hcol : BUFFER_WIDTH ≤ s.column_position
    · rw [write_byte_of_ge s byte hb hcol,
        write_byte_of_lt (s.new_line) byte hb (by rw [new_line_column]; decide)]
      show (s.new_line).column_position + 1 ≤ BUFFER_WIDTH
      rw [new_line_column]
      decide
    · rw [write_byte_of_lt s byte hb (by omega)]
      show s.column_position + 1 ≤ BUFFER_WIDTH
      omega

theorem write_string_col_le :
    ∀ (bytes : List Nat) (s : Writer), s.column_position ≤ BUFFER_WIDTH →
      (s.write_string bytes).column_position ≤ BUFFER_WIDTH := by
  intro bytes
  induction bytes with
  | nil =>
      intro s h
      rw [write_string_nil]
      exact h
  | cons x xs ih =>
      intro s h
      rw [write_string_cons]
      by_cases hc : (0x20 ≤ x ∧ x ≤ 0x7e) ∨ x = 10
      · rw [if_pos hc]
        exact ih _ (write_byte_col_le s x)
      · rw [if_neg hc]
        exact ih _ (write_byte_col_le s 0xfe)

/-! ### Theorems for the claims -/

/-- C1: the claim states that `clear_row(r)` blanks every column of row `r`
and that after `new_line()` the bottom row is all blank.  The source method
`clear_row` binds the blank cell but performs no write, so the claim fails on
the code: `clear_row` returns the writer unchanged for every row, and a
non-blank cell in the bottom row survives both `clear_row` and `new_line`. -/
theorem clear_row_writes_nothing :
    (∀ (s : Writer) (row : Nat), s.clear_row row = s) ∧
    ((wA.clear_row (BUFFER_HEIGHT - 1)).buffer (BUFFER_HEIGHT - 1) 0).ascii_char ≠ 0x20 ∧
    ((wA.new_line).buffer (BUFFER_HEIGHT - 1) 0).ascii_char ≠ 0x20 := by
  refine ⟨fun s row => rfl, by decide, ?_⟩
  rw [new_line_buffer, shiftUp_apply, if_neg (by decide)]
  decide

/-- C2 counterexample: `write_byte` stores the raw byte, so from the blank
initial writer, `write_byte(0x01)` and `write_byte(0xFE)` leave different
bytes in the bottom-left cell and hence different post-states. -/
theorem write_byte_keeps_raw_byte :
    w0.write_byte 0x01 ≠ w0.write_byte 0xfe := by
  intro h
  have h2 : ((w0.write_byte 0x01).buffer (BUFFER_HEIGHT - 1) 0).ascii_char
      = ((w0.write_byte 0xfe).buffer (BUFFER_HEIGHT - 1) 0).ascii_char := by rw [h]
  have e1 : ((w0.write_byte 0x01).buffer (BUFFER_HEIGHT - 1) 0).ascii_char = 0x01 := rfl
  have e2 : ((w0.write_byte 0xfe).buffer (BUFFER_HEIGHT - 1) 0).ascii_char = 0xfe := rfl
  rw [e1, e2] at h2
  exact absurd h2 (by decide)

/-- C2 amended: the 0xFE sanitization lives in `write_string`, not
`write_byte`: for every byte outside `0x20..=0x7E` that is not the newline
byte, `write_string` applied to that single byte produces exactly the same
post-state as `write_byte(0xFE)`. -/
theorem write_string_sanitizes_unprintable (s : Writer) (b : Nat) (hb : b < 256)
    (h1 : ¬(0x20 ≤ b ∧ b ≤ 0x7e)) (h2 : b ≠ 10) :
    s.write_string [b] = s.write_byte 0xfe := by
  rw [write_string_cons, if_neg (by tauto), write_string_nil]

/-- Witness for the amended C2 at the concrete byte 0x01. -/
theorem write_string_sanitizes_unprintable_witness :
    (1 : Nat) < 256 ∧ ¬(0x20 ≤ (1 : Nat) ∧ (1 : Nat) ≤ 0x7e) ∧ (1 : Nat) ≠ 10 ∧
      w0.write_string [1] = w0.write_byte 0xfe :=
  ⟨by decide, by decide, by decide,
    write_string_sanitizes_unprintable w0 1 (by decide) (by decide) (by decide)⟩

/-- C3: on the embedding (with the column index that the source omits on the
write target restored, see `copyRow`), `new_line` shifts every row up by
one — row `r - 1` afterwards holds what row `r` held before — and resets
`column_position` to 0. -/
theorem new_line_shifts_rows (s : Writer)
    (r : Fin (BUFFER_HEIGHT - 1)) (c : Fin BUFFER_WIDTH) :
    (s.new_line).buffer r.val c.val = s.buffer (r.val + 1) c.val ∧
    (s.new_line).column_position = 0 := by
  refine ⟨?_, rfl⟩
  rw [new_line_buffer, shiftUp_apply, if_pos ⟨r.isLt, c.isLt⟩]

/-- C4: for a non-newline byte, `write_byte` scrolls first exactly when the
column is at or past the right margin, then places the byte with the current
color at the bottom row and the current column, and increments the column. -/
theorem write_byte_places (s : Writer) (byte : Nat) (hb : byte < 256) (hn : byte ≠ 10) :
    (s.column_position < BUFFER_WIDTH →
      (s.write_byte byte).buffer (BUFFER_HEIGHT - 1) s.column_position
          = { ascii_char := byte, color_code := s.color_code } ∧
      (s.write_byte byte).column_position = s.column_position + 1 ∧
      (s.write_byte byte).scrolls = s.scrolls) ∧
    (BUFFER_WIDTH ≤ s.column_position →
      s.write_byte byte = (s.new_line).write_byte byte ∧
      (s.write_byte byte).scrolls = s.scrolls + 1 ∧
      (s.write_byte byte).buffer (BUFFER_HEIGHT - 1) 0
          = { ascii_char := byte, color_code := s.color_code } ∧
      (s.write_byte byte).column_position = 1) := by
  constructor
  · intro h
    rw [write_byte_of_lt s byte hn h]
    exact ⟨Buffer.write_apply_self .., rfl, rfl⟩
  · intro h
    rw [write_byte_of_ge s byte hn h,
      write_byte_of_lt (s.new_line) byte hn (by rw [new_line_column]; decide)]
    refine ⟨rfl, rfl, ?_, rfl⟩
    show ((s.new_line).buffer.write (BUFFER_HEIGHT - 1) (s.new_line).column_position
        { ascii_char := byte, color_code := (s.new_line).color_code }) (BUFFER_HEIGHT - 1) 0
      = { ascii_char := byte, color_code := s.color_code }
    rw [new_line_column, new_line_color]
    exact Buffer.write_apply_self ..

/-- Witness for C4 at the concrete byte 65 below the margin and the concrete
byte 66 at the margin. -/
theorem write_byte_places_witness :
    ((w0.write_byte 65).buffer (BUFFER_HEIGHT - 1) w0.column_position
        = { ascii_char := 65, color_code := w0.color_code } ∧
      (w0.write_byte 65).column_position = w0.column_position + 1 ∧
      (w0.write_byte 65).scrolls = w0.scrolls) ∧
    (w80.write_byte 66 = (w80.new_line).write_byte 66 ∧
      (w80.write_byte 66).scrolls = w80.scrolls + 1 ∧
      (w80.write_byte 66).buffer (BUFFER_HEIGHT - 1) 0
        = { ascii_char := 66, color_code := w80.color_code } ∧
      (w80.write_byte 66).column_position = 1) :=
  ⟨(write_byte_places w0 65 (by decide) (by decide)).1 (by decide),
   (write_byte_places w80 66 (by decide) (by decide)).2 (by decide)⟩

/-- C5: `write_string` walks the bytes in order; a byte in `0x20..=0x7E` or
the newline byte is forwarded to `write_byte` unchanged, and every other
byte is forwarded as 0xFE. -/
theorem write_string_step (s : Writer) (b : Nat) (rest : List Nat) :
    (((0x20 ≤ b ∧ b ≤ 0x7e) ∨ b = 10) →
        s.write_string (b :: rest) = (s.write_byte b).write_string rest) ∧
    (¬((0x20 ≤ b ∧ b ≤ 0x7e) ∨ b = 10) →
        s.write_string (b :: rest) = (s.write_byte 0xfe).write_string rest) := by
  constructor
  · intro hc
    rw [write_string_cons, if_pos hc]
  · intro hc
    rw [write_string_cons, if_neg hc]

/-- Witness for C5 at a printable byte (72) and an unprintable byte (1). -/
theorem write_string_step_witness :
    w0.write_string (72 :: [105]) = (w0.write_byte 72).write_string [105] ∧
    w0.write_string (1 :: [105]) = (w0.write_byte 0xfe).write_string [105] :=
  ⟨(write_string_step w0 72 [105]).1 (by decide),
   (write_string_step w0 1 [105]).2 (by decide)⟩

/-- C7: `ColorCode::new` packs `(background << 4) | foreground`: the packed
byte stays below 256, its high nibble is the background discriminant and its
low nibble the foreground discriminant; Yellow on Black gives 0x0E. -/
theorem ColorCode_new_packs (fg bg : Color) :
    (ColorCode.new fg bg).code = (bg.toByte <<< 4) ||| fg.toByte ∧
    (ColorCode.new fg bg).code / 16 = bg.toByte ∧
    (ColorCode.new fg bg).code % 16 = fg.toByte ∧
    (ColorCode.new fg bg).code < 256 ∧
    ColorCode.new Color.Yellow Color.Black = ⟨0x0e⟩ := by
  cases fg <;> cases bg <;> decide

/-- C8: the invariant `column_position ≤ BUFFER_WIDTH` holds of the initial
`WRITER` state and is preserved by `write_byte`, `write_string` and
`new_line`, for every input. -/
theorem column_position_invariant :
    (∀ buf : Buffer, (initialWriter buf).column_position ≤ BUFFER_WIDTH) ∧
    (∀ (s : Writer) (byte : Nat), s.column_position ≤ BUFFER_WIDTH →
        (s.write_byte byte).column_position ≤ BUFFER_WIDTH) ∧
    (∀ (s : Writer) (bytes : List Nat), s.column_position ≤ BUFFER_WIDTH →
        (s.write_string bytes).column_position ≤ BUFFER_WIDTH) ∧
    (∀ s : Writer, (s.new_line).column_position ≤ BUFFER_WIDTH) :=
  ⟨fun buf => Nat.zero_le _,
   fun s byte h => write_byte_col_le s byte,
   fun s bytes h => write_string_col_le bytes s h,
   fun s => by rw [new_line_column]; exact Nat.zero_le _⟩

/-- Witness for C8 at the concrete initial writer and concrete inputs. -/
theorem column_position_invariant_witness :
    (initialWriter blankBuffer).column_position ≤ BUFFER_WIDTH ∧
    (w0.write_byte 65).column_position ≤ BUFFER_WIDTH ∧
    (w0.write_string [72, 105]).column_position ≤ BUFFER_WIDTH ∧
    (w0.new_line).column_position ≤ BUFFER_WIDTH :=
  ⟨column_position_invariant.1 blankBuffer,
   column_position_invariant.2.1 w0 65 (by decide),
   column_position_invariant.2.2.1 w0 [72, 105] (by decide),
   column_position_invariant.2.2.2 w0⟩

/-- C10: when the column is strictly inside the row, `write_byte` with a
non-newline byte changes only the single cell at
`(BUFFER_HEIGHT - 1, column_position)`: every other cell of the buffer and
the color of the writer are unchanged. -/
theorem write_byte_frame (s : Writer) (byte : Nat) (hn : byte ≠ 10)
    (hcol : s.column_position < BUFFER_WIDTH) :
    (∀ r c, ¬(r = BUFFER_HEIGHT - 1 ∧ c = s.column_position) →
        (s.write_byte byte).buffer r c = s.buffer r c) ∧
    (s.write_byte byte).color_code = s.color_code := by
  rw [write_byte_of_lt s byte hn hcol]
  exact ⟨fun r c h => Buffer.write_apply_ne _ _ _ _ _ _ h, rfl⟩

/-- Witness for C10 at the concrete byte 65 and the untouched cell (0, 0). -/
theorem write_byte_frame_witness :
    (w0.write_byte 65).buffer 0 0 = w0.buffer 0 0 ∧
    (w0.write_byte 65).color_code = w0.color_code :=
  ⟨(write_byte_frame w0 65 (by decide) (by decide)).1 0 0 (by decide),
   (write_byte_frame w0 65 (by decide) (by decide)).2⟩

theorem writeBytes_fill :
    ∀ (bytes : List Nat) (s : Writer), (∀ x ∈ bytes, x ≠ 10) →
      s.column_position + bytes.length ≤ BUFFER_WIDTH →
      (s.writeBytes bytes).column_position = s.column_position + bytes.length ∧
      (s.writeBytes bytes).scrolls = s.scrolls ∧
      (s.writeBytes bytes).color_code = s.color_code ∧
      (∀ i, i < bytes.length →
        (s.writeBytes bytes).buffer (BUFFER_HEIGHT - 1) (s.column_position + i)
          = { ascii_char := bytes.getD i 0, color_code := s.color_code }) ∧
      (∀ r c, (r = BUFFER_HEIGHT - 1 →
            c < s.column_position ∨ s.column_position + bytes.length ≤ c) →
        (s.writeBytes bytes).buffer r c = s.buffer r c) := by
  intro bytes
  induction bytes with
  | nil =>
      intro s hne hlen
      rw [writeBytes_nil]
      refine ⟨by simp, rfl, rfl, ?_, fun r c h => rfl⟩
      intro i hi
      exact absurd hi (by simp)
  | cons x xs ih =>
      intro s hne hlen
      simp only [List.length_cons] at hlen
      have hx10 : x ≠ 10 := hne x (List.mem_cons_self x xs)
      have hcol : s.column_position < BUFFER_WIDTH := by omega
      rw [writeBytes_cons, write_byte_of_lt s x hx10 hcol]
      obtain ⟨hcol1, hscr1, hclr1, hcell1, hframe1⟩ :=
        ih { s with
              buffer := s.buffer.write (BUFFER_HEIGHT - 1) s.column_position
                { ascii_char := x, color_code := s.color_code }
              column_position := s.column_position + 1 }
          (fun y hy => hne y (List.mem_cons_of_mem x hy))
          (by show s.column_position + 1 + xs.length ≤ BUFFER_WIDTH; omega)
      refine ⟨?_, hscr1, hclr1, ?_, ?_⟩
      · rw [hcol1]
        show s.column_position + 1 + xs.length = s.column_position + (xs.length + 1)
        omega
      · intro i hi
        match i with
        | 0 =>
            rw [show s.column_position + 0 = s.column_position by omega]
            rw [hframe1 (BUFFER_HEIGHT - 1) s.column_position
              (fun hr => Or.inl (by show s.column_position < s.column_position + 1; omega))]
            exact Buffer.write_apply_self ..
        | j + 1 =>
            simp only [List.length_cons] at hi
            rw [show s.column_position + (j + 1) = s.column_position + 1 + j by omega]
            exact hcell1 j (by omega)
      · intro r c hrc
        rw [hframe1 r c (fun hr => (hrc hr).elim
          (fun hlt => Or.inl (by show c < s.column_position + 1; omega))
          (fun hge => Or.inr (by show s.column_position + 1 + xs.length ≤ c
                                 simp only [List.length_cons] at hge
                                 omega)))]
        refine Buffer.write_apply_ne _ _ _ _ _ _ ?_
        rintro ⟨hr, hc⟩
        rcases hrc hr with hlt | hge
        · omega
        · simp only [List.length_cons] at hge
          omega

/-- C6: from column 0, writing exactly `BUFFER_WIDTH` printable bytes through
`write_byte` fills the bottom row left to right with no scroll and leaves the
column at `BUFFER_WIDTH`; one further printable byte triggers exactly one
scroll before it is placed: the column resets to 0 and then increments to 1,
and that byte lands at `(BUFFER_HEIGHT - 1, 0)` with the current color. -/
theorem writeBytes_row_fill_and_wrap (s : Writer) (bytes : List Nat) (b : Nat)
    (hcol : s.column_position = 0) (hlen : bytes.length = BUFFER_WIDTH)
    (hprint : ∀ x ∈ bytes, 0x20 ≤ x ∧ x ≤ 0x7e) (hb : 0x20 ≤ b ∧ b ≤ 0x7e) :
    ((s.writeBytes bytes).scrolls = s.scrolls ∧
      (s.writeBytes bytes).column_position = BUFFER_WIDTH ∧
      (∀ i : Fin BUFFER_WIDTH,
        (s.writeBytes bytes).buffer (BUFFER_HEIGHT - 1) i.val
          = { ascii_char := bytes.getD i.val 0, color_code := s.color_code })) ∧
    ((s.writeBytes (bytes ++ [b])).scrolls = s.scrolls + 1 ∧
      (s.writeBytes (bytes ++ [b])).column_position = 1 ∧
      (s.writeBytes (bytes ++ [b])).buffer (BUFFER_HEIGHT - 1) 0
          = { ascii_char := b, color_code := s.color_code }) := by
  have hne : ∀ x ∈ bytes, x ≠ 10 := fun x hx => by
    have := hprint x hx
    omega
  have hb10 : b ≠ 10 := by omega
  obtain ⟨h1, h2, h3, h4, h5⟩ := writeBytes_fill bytes s hne (by omega)
  have hcolW : (s.writeBytes bytes).column_position = BUFFER_WIDTH := by
    rw [h1, hcol, hlen]
    omega
  have hcells : ∀ i : Fin BUFFER_WIDTH,
      (s.writeBytes bytes).buffer (BUFFER_HEIGHT - 1) i.val
        = { ascii_char := bytes.getD i.val 0, color_code := s.color_code } := by
    intro i
    have h := h4 i.val (by rw [hlen]; exact i.isLt)
    rw [hcol] at h
    rw [show (0 : Nat) + i.val = i.val from by omega] at h
    exact h
  refine ⟨⟨h2, hcolW, hcells⟩, ?_⟩
  rw [writeBytes_append, writeBytes_cons, writeBytes_nil]
  rw [write_byte_of_ge (s.writeBytes bytes) b hb10 (by omega),
    write_byte_of_lt ((s.writeBytes bytes).new_line) b hb10 (by rw [new_line_column]; decide)]
  refine ⟨?_, rfl, ?_⟩
  · show ((s.writeBytes bytes).new_line).scrolls = s.scrolls + 1
    rw [new_line_scrolls, h2]
  · show (((s.writeBytes bytes).new_line).buffer.write (BUFFER_HEIGHT - 1)
        ((s.writeBytes bytes).new_line).column_position
        { ascii_char := b, color_code := ((s.writeBytes bytes).new_line).color_code })
        (BUFFER_HEIGHT - 1) 0
      = { ascii_char := b, color_code := s.color_code }
    rw [new_line_column, new_line_color, h3]
    exact Buffer.write_apply_self ..

/-- Witness for C6: eighty letters a fill the bottom row with no scroll, and
one letter b more scrolls once and lands at column 0. -/
theorem writeBytes_row_fill_and_wrap_witness :
    ((w0.writeBytes (List.replicate 80 97)).scrolls = w0.scrolls ∧
      (w0.writeBytes (List.replicate 80 97)).column_position = BUFFER_WIDTH ∧
      (∀ i : Fin BUFFER_WIDTH,
        (w0.writeBytes (List.replicate 80 97)).buffer (BUFFER_HEIGHT - 1) i.val
          = { ascii_char := (List.replicate 80 97).getD i.val 0,
              color_code := w0.color_code })) ∧
    ((w0.writeBytes (List.replicate 80 97 ++ [98])).scrolls = w0.scrolls + 1 ∧
      (w0.writeBytes (List.replicate 80 97 ++ [98])).column_position = 1 ∧
      (w0.writeBytes (List.replicate 80 97 ++ [98])).buffer (BUFFER_HEIGHT - 1) 0
          = { ascii_char := 98, color_code := w0.color_code }) :=
  writeBytes_row_fill_and_wrap w0 (List.replicate 80 97) 98 rfl (by decide)
    (by decide) (by decide)

theorem foldCellsO_eq (row : Nat) (hrow : row < BUFFER_HEIGHT) :
    ∀ (cols : List Nat), (∀ x ∈ cols, x < BUFFER_WIDTH) → ∀ b : Buffer,
      foldCellsO row cols b
        = some (cols.foldl (fun b col => b.write (row - 1) col (b.read row col)) b) := by
  intro cols
  induction cols with
  | nil =>
      intro h b
      rfl
  | cons x xs ih =>
      intro h b
      have hx : x < BUFFER_WIDTH := h x (List.mem_cons_self x xs)
      simp only [foldCellsO]
      rw [show b.readO row x = some (b.read row x) from if_pos ⟨hrow, hx⟩,
        Option.some_bind,
        show b.writeO (row - 1) x (b.read row x)
            = some (b.write (row - 1) x (b.read row x)) from if_pos ⟨by omega, hx⟩,
        Option.some_bind, List.foldl_cons]
      exact ih (fun y hy => h y (List.mem_cons_of_mem x hy)) _

theorem copyRowO_eq (b : Buffer) (row : Nat) (hrow : row < BUFFER_HEIGHT) :
    copyRowO b row = some (copyRow b row) := by
  unfold copyRowO copyRow
  exact foldCellsO_eq row hrow (List.range BUFFER_WIDTH)
    (fun x hx => List.mem_range.mp hx) b

theorem foldRowsO_eq :
    ∀ (rows : List Nat), (∀ x ∈ rows, x < BUFFER_HEIGHT) → ∀ b : Buffer,
      foldRowsO rows b = some (rows.foldl (fun b row => copyRow b row) b) := by
  intro rows
  induction rows with
  | nil =>
      intro h b
      rfl
  | cons x xs ih =>
      intro h b
      simp only [foldRowsO]
      rw [copyRowO_eq b x (h x (List.mem_cons_self x xs)), Option.some_bind,
        List.foldl_cons]
      exact ih (fun y hy => h y (List.mem_cons_of_mem x hy)) _

theorem shiftUpO_eq (b : Buffer) : shiftUpO b = some (shiftUp b) := by
  unfold shiftUpO shiftUp
  refine foldRowsO_eq _ (fun x hx => ?_) b
  have h := List.mem_range'_1.mp hx
  omega

theorem new_lineO_eq (s : Writer) : s.new_lineO = some s.new_line := by
  unfold Writer.new_lineO
  rw [shiftUpO_eq, Option.some_bind]
  rw [show Writer.clear_rowO
      { s with buffer := shiftUp s.buffer, scrolls := s.scrolls + 1 }
      (BUFFER_HEIGHT - 1)
    = some (Writer.clear_row
      { s with buffer := shiftUp s.buffer, scrolls := s.scrolls + 1 }
      (BUFFER_HEIGHT - 1)) from rfl, Option.some_bind]
  rfl

theorem write_byteO_eq (s : Writer) (h : s.column_position ≤ BUFFER_WIDTH)
    (byte : Nat) : s.write_byteO byte = some (s.write_byte byte) := by
  by_cases hb : byte = 10
  · subst hb
    rw [write_byte_newline]
    unfold Writer.write_byteO
    rw [if_pos rfl]
    exact new_lineO_eq s
  · unfold Writer.write_byteO
    rw [if_neg hb]
    by_cases hcol : BUFFER_WIDTH ≤ s.column_position
    · rw [if_pos hcol, new_lineO_eq s, Option.some_bind]
      rw [show (s.new_line).buffer.writeO (BUFFER_HEIGHT - 1)
            (s.new_line).column_position
            { ascii_char := byte, color_code := (s.new_line).color_code }
          = some ((s.new_line).buffer.write (BUFFER_HEIGHT - 1)
            (s.new_line).column_position
            { ascii_char := byte, color_code := (s.new_line).color_code })
        from if_pos ⟨by decide, by rw [new_line_column]; decide⟩, Option.some_bind]
      rw [write_byte_of_ge s byte hb hcol,
        write_byte_of_lt (s.new_line) byte hb (by rw [new_line_column]; decide)]
    · rw [if_neg hcol, Option.some_bind]
      rw [show s.buffer.writeO (BUFFER_HEIGHT - 1) s.column_position
            { ascii_char := byte, color_code := s.color_code }
          = some (s.buffer.write (BUFFER_HEIGHT - 1) s.column_position
            { ascii_char := byte, color_code := s.color_code })
        from if_pos ⟨by decide, by omega⟩, Option.some_bind]
      rw [write_byte_of_lt s byte hb (by omega)]

/-- C9: under the invariant `column_position ≤ BUFFER_WIDTH`, the
Option-indexed model of `new_line` and `write_byte` never reaches the
out-of-range branch: both return `some` and agree with the total model, for
every input. -/
theorem accesses_in_bounds (s : Writer) (h : s.column_position ≤ BUFFER_WIDTH) :
    s.new_lineO = some s.new_line ∧
    ∀ byte, s.write_byteO byte = some (s.write_byte byte) :=
  ⟨new_lineO_eq s, fun byte => write_byteO_eq s h byte⟩

/-- Witness for C9 at the concrete initial writer and byte 65. -/
theorem accesses_in_bounds_witness :
    w0.column_position ≤ BUFFER_WIDTH ∧
    w0.new_lineO = some w0.new_line ∧
    w0.write_byteO 65 = some (w0.write_byte 65) :=
  ⟨by decide, (accesses_in_bounds w0 (by decide)).1,
   (accesses_in_bounds w0 (by decide)).2 65⟩

end VgaBuffer
